import Mathlib

/-!
Verification of the quadrature notebook `Python_and_Numerical_Integration.ipynb`.

The notebook defines four quadrature routines (`Integral_Riemann`,
`Integral_Trapezoid1`, `Integral_Trapezoid2`, `Integral_SimpsonRule`) and a
numeric differentiator (`dF_dx`, wrapping `scipy.misc.derivative`, together
with its vectorised form `Vect_dF_dx`).

Embedding conventions:
* Python floats are idealised as an arbitrary field `K` (the specification's
  properties are stated "in exact arithmetic"); the theorems that need to
  cancel the subdivision count additionally assume `CharZero K`, which holds
  for the reals.
* The subdivision count `n` is a Python `int`, embedded as `ℤ`.  A Python
  slice `range(s, e, k)` is the list `List.range' s len k` whose length `len`
  is `max 0 ((e - s + k - 1) / k)`, written below with `Int.toNat` (which
  clamps negative values to `0`, exactly as an empty Python range).
* `np.vectorize f` applied to a list of abscissas is embedded as `List.map f`
  (elementwise evaluation in order, as the vectorised call performs).
* Python's `float` division raises `ZeroDivisionError` when the divisor is
  `0.0`; the `...E` variants below return `Except` to model this, while the
  plain variants are the total arithmetic idealisation (Lean's `x / 0 = 0`).
-/

namespace NumInt

/-- Exceptions the embedded routines can raise.  `float(n)` is `0.0` exactly
when the integer `n` is `0`, and dividing a Python float by `0.0` raises
`ZeroDivisionError`. -/
inductive PyErr where
  | zeroDivisionError
  deriving DecidableEq, Repr

section Defs

variable {K : Type*} [Field K]

/-- Embedding of `Integral_Riemann(f, a, b, n)`:
`h = (float(b)-float(a))/float(n)`, `xvals = [a + i*h for i in range(1, n+1)]`
(`n.toNat` points starting at index `1`), `yvals = np.vectorize(f)(xvals)`,
result `sum(yvals)*h`. -/
def Integral_Riemann (f : K → K) (a b : K) (n : ℤ) : K :=
  let enne : K := (n : K)
  let h : K := (b - a) / enne
  let xvals : List K := (List.range' 1 n.toNat 1).map (fun i : ℕ => a + (i : K) * h)
  let yvals : List K := xvals.map f
  yvals.sum * h

/-- Embedding of `Integral_Trapezoid1(f, a, b, n)`:
`xvals = [a + i*h for i in range(1, n)]` (the `n-1` interior points), result
`(sum(yvals) + 0.5*(f(a) + f(b)))*h`. -/
def Integral_Trapezoid1 (f : K → K) (a b : K) (n : ℤ) : K :=
  let enne : K := (n : K)
  let h : K := (b - a) / enne
  let xvals : List K := (List.range' 1 (n - 1).toNat 1).map (fun i : ℕ => a + (i : K) * h)
  let yvals : List K := xvals.map f
  (yvals.sum + 1 / 2 * (f a + f b)) * h

/-- Embedding of `Integral_Trapezoid2(f, a, b, n)`:
`xvals1 = [a + i*h for i in range(0, n)]`, `xvals2 = [a + i*h for i in range(1, n+1)]`,
result `(sum(yvals1) + sum(yvals2))*.5*h`. -/
def Integral_Trapezoid2 (f : K → K) (a b : K) (n : ℤ) : K :=
  let enne : K := (n : K)
  let h : K := (b - a) / enne
  let xvals1 : List K := (List.range n.toNat).map (fun i : ℕ => a + (i : K) * h)
  let xvals2 : List K := (List.range' 1 n.toNat 1).map (fun i : ℕ => a + (i : K) * h)
  let yvals1 : List K := xvals1.map f
  let yvals2 : List K := xvals2.map f
  (yvals1.sum + yvals2.sum) * (1 / 2) * h

/-- Embedding of `Integral_SimpsonRule(f, a, b, n)`:
`xvalsOdd = [a + i*h for i in range(1, n, 2)]` (length `max 0 (n/2)`),
`xvalsEven = [a + i*h for i in range(2, n-1, 2)]` (length `max 0 ((n-2)/2)`),
result `(4/3.0*sum(yvalsOdd) + 2/3.0*sum(yvalsEven) + 1/3.0*f(a) + 1/3.0*f(b))*h`. -/
def Integral_SimpsonRule (f : K → K) (a b : K) (n : ℤ) : K :=
  let enne : K := (n : K)
  let h : K := (b - a) / enne
  let xvalsOdd : List K := (List.range' 1 (n.toNat / 2) 2).map (fun i : ℕ => a + (i : K) * h)
  let xvalsEven : List K := (List.range' 2 ((n - 2).toNat / 2) 2).map (fun i : ℕ => a + (i : K) * h)
  let yvalsOdd : List K := xvalsOdd.map f
  let yvalsEven : List K := xvalsEven.map f
  (4 / 3 * yvalsOdd.sum + 2 / 3 * yvalsEven.sum + 1 / 3 * f a + 1 / 3 * f b) * h

/-- `Integral_Riemann` with Python's `ZeroDivisionError` modelled: the first
statement that can fail is `h = (float(b)-float(a))/float(n)`, which raises
exactly when `n = 0`. -/
def Integral_RiemannE (f : K → K) (a b : K) (n : ℤ) : Except PyErr K :=
  if n = 0 then .error .zeroDivisionError else .ok (Integral_Riemann f a b n)

/-- `Integral_Trapezoid1` with Python's `ZeroDivisionError` modelled. -/
def Integral_Trapezoid1E (f : K → K) (a b : K) (n : ℤ) : Except PyErr K :=
  if n = 0 then .error .zeroDivisionError else .ok (Integral_Trapezoid1 f a b n)

/-- `Integral_Trapezoid2` with Python's `ZeroDivisionError` modelled. -/
def Integral_Trapezoid2E (f : K → K) (a b : K) (n : ℤ) : Except PyErr K :=
  if n = 0 then .error .zeroDivisionError else .ok (Integral_Trapezoid2 f a b n)

/-- `Integral_SimpsonRule` with Python's `ZeroDivisionError` modelled. -/
def Integral_SimpsonRuleE (f : K → K) (a b : K) (n : ℤ) : Except PyErr K :=
  if n = 0 then .error .zeroDivisionError else .ok (Integral_SimpsonRule f a b n)

/-- Modelled from the spec: `scipy.misc.derivative(func, x0, dx, n=1, order=3)`
is imported library code, not part of the repository source.  For the default
`n=1, order=3` it forms the weights `[-1/2, 0, 1/2]`, evaluates `func` at
`x0 + (k - 1)*dx` for `k = 0, 1, 2`, and divides the weighted sum by `dx` —
the centered finite difference of §4.3 of the spec. -/
def scipy_derivative (F : K → K) (x0 dx : K) : K :=
  (-(1 / 2) * F (x0 + ((0 : K) - 1) * dx)
    + 0 * F (x0 + ((1 : K) - 1) * dx)
    + 1 / 2 * F (x0 + ((2 : K) - 1) * dx)) / dx

/-- Embedding of `dF_dx(x)`: `derivative(F, x, dx=0.0001)`.  The notebook
instantiates the antiderivative `F` with `np.sin`; the antiderivative is kept
abstract here, as in the spec's contract (§4.3), and the fixed step is the
source's `dx = 0.0001 = 1/10000`. -/
def dF_dx (F : K → K) (x : K) : K :=
  scipy_derivative F x (1 / 10000)

/-- Embedding of `Vect_dF_dx = np.vectorize(dF_dx)` applied to a list of
points: elementwise evaluation in order. -/
def Vect_dF_dx (F : K → K) (xs : List K) : List K :=
  xs.map (dF_dx F)

end Defs

section SumLemmas

variable {K : Type*} [Field K]

/-- Summing a function over an arithmetic-progression index list equals the
corresponding `Finset.range` sum. -/
theorem range_map_sum_aux (g : ℕ → K) (s len step : ℕ) :
    ((List.range' s len step).map g).sum = ∑ i in Finset.range len, g (s + step * i) := by
  induction len generalizing s with
  | zero => simp
  | succ m ih =>
      rw [List.range'_succ, List.map_cons, List.sum_cons, ih, Finset.sum_range_succ']
      simp [Nat.succ_eq_add_one, mul_add, add_assoc, add_comm, add_left_comm, mul_comm]

/-- `Integral_Riemann` as a `Finset.range` sum of right-endpoint values. -/
theorem Riemann_eq (f : K → K) (a b : K) (n : ℤ) :
    Integral_Riemann f a b n =
      (∑ i in Finset.range n.toNat, f (a + ((i : K) + 1) * ((b - a) / (n : K))))
        * ((b - a) / (n : K)) := by
  unfold Integral_Riemann
  simp only [List.map_map]
  rw [range_map_sum_aux]
  refine congrArg (· * _) (Finset.sum_congr rfl fun i _ => congrArg f ?_)
  push_cast
  ring

/-- `Integral_Trapezoid1` as a `Finset.range` sum of interior values plus
half-weighted endpoints. -/
theorem Trapezoid1_eq (f : K → K) (a b : K) (n : ℤ) :
    Integral_Trapezoid1 f a b n =
      ((∑ i in Finset.range (n - 1).toNat, f (a + ((i : K) + 1) * ((b - a) / (n : K))))
          + 1 / 2 * (f a + f b))
        * ((b - a) / (n : K)) := by
  unfold Integral_Trapezoid1
  simp only [List.map_map]
  rw [range_map_sum_aux]
  refine congrArg (· * _) (congrArg (· + _) (Finset.sum_congr rfl fun i _ => congrArg f ?_))
  push_cast
  ring

/-- `Integral_Trapezoid2` as the left-endpoint and right-endpoint
`Finset.range` sums. -/
theorem Trapezoid2_eq (f : K → K) (a b : K) (n : ℤ) :
    Integral_Trapezoid2 f a b n =
      ((∑ i in Finset.range n.toNat, f (a + (i : K) * ((b - a) / (n : K))))
          + ∑ i in Finset.range n.toNat, f (a + ((i : K) + 1) * ((b - a) / (n : K))))
        * (1 / 2) * ((b - a) / (n : K)) := by
  unfold Integral_Trapezoid2
  simp only [List.map_map, List.range_eq_range']
  rw [range_map_sum_aux, range_map_sum_aux]
  refine congrArg (· * _) (congrArg (· * _) ?_)
  refine congrArg₂ (· + ·) ?_ ?_ <;>
    refine Finset.sum_congr rfl fun i _ => congrArg f ?_ <;> push_cast <;> ring

/-- `Integral_SimpsonRule` as `Finset.range` sums over the odd-indexed and the
even interior abscissas. -/
theorem Simpson_eq (f : K → K) (a b : K) (n : ℤ) :
    Integral_SimpsonRule f a b n =
      (4 / 3 * ∑ j in Finset.range (n.toNat / 2), f (a + (2 * (j : K) + 1) * ((b - a) / (n : K)))
          + 2 / 3 * ∑ j in Finset.range ((n - 2).toNat / 2),
              f (a + (2 * (j : K) + 2) * ((b - a) / (n : K)))
          + 1 / 3 * f a + 1 / 3 * f b)
        * ((b - a) / (n : K)) := by
  unfold Integral_SimpsonRule
  simp only [List.map_map]
  rw [range_map_sum_aux, range_map_sum_aux]
  refine congrArg (· * _) ?_
  refine congrArg₂ (· + ·) (congrArg₂ (· + ·) (congrArg₂ (· + ·) ?_ ?_) rfl) rfl <;>
    refine congrArg (_ * ·) (Finset.sum_congr rfl fun i _ => congrArg f ?_) <;>
      push_cast <;> ring

end SumLemmas

section Claims

variable {K : Type*} [Field K]

/-- Casting `Int.toNat` of a nonnegative integer into a field. -/
theorem int_toNat_cast [CharZero K] (n : ℤ) (hn : 0 ≤ n) : ((n.toNat : ℕ) : K) = (n : K) := by
  rw [← Int.cast_natCast, Int.toNat_of_nonneg hn]

/-- Claim C1: for `n ≥ 1`, `Integral_Riemann f a b n` is the right-endpoint
Riemann sum `Δx * ∑_{i=1}^{n} f (a + i Δx)` with `Δx = (b-a)/n`, and the value
depends on `f` only through the `n` right endpoints (no other points are
sampled): two integrands agreeing there give equal results. -/
theorem riemann_right_endpoint_sum (f g : K → K) (a b : K) (n : ℤ) (_hn : 1 ≤ n)
    (Dx : K) (hD : Dx = (b - a) / (n : K)) :
    Integral_Riemann f a b n = Dx * ∑ i in Finset.range n.toNat, f (a + ((i : K) + 1) * Dx)
    ∧ ((∀ i : ℕ, i < n.toNat → f (a + ((i : K) + 1) * Dx) = g (a + ((i : K) + 1) * Dx)) →
        Integral_Riemann f a b n = Integral_Riemann g a b n) := by
  subst hD
  constructor
  · rw [Riemann_eq]; ring
  · intro hfg
    rw [Riemann_eq, Riemann_eq]
    exact congrArg (· * _) (Finset.sum_congr rfl fun i hi => hfg i (Finset.mem_range.mp hi))

/-- Witness for C1 at `f = g = id`, `a = 0`, `b = 1`, `n = 1` over `ℚ`. -/
theorem riemann_right_endpoint_sum_witness :
    (1 : ℤ) ≤ 1 ∧
      Integral_Riemann (fun x : ℚ => x) 0 1 1 =
        ((1 - 0) / ((1 : ℤ) : ℚ))
          * ∑ i in Finset.range (1 : ℤ).toNat, (0 + ((i : ℚ) + 1) * ((1 - 0) / ((1 : ℤ) : ℚ))) :=
  ⟨by decide,
    (riemann_right_endpoint_sum (fun x : ℚ => x) (fun x : ℚ => x) 0 1 1 (by decide) _ rfl).1⟩

/-- Claim C2: for `n ≥ 1`, `Integral_Trapezoid1 f a b n` equals
`Δx * (0.5 f a + 0.5 f b + ∑_{i=1}^{n-1} f (a + i Δx))`; in particular at
`n = 1` the interior sum is empty and the result is `0.5 (f a + f b) (b - a)`. -/
theorem trapezoid1_formula (f : K → K) (a b : K) (n : ℤ) (_hn : 1 ≤ n)
    (Dx : K) (hD : Dx = (b - a) / (n : K)) :
    Integral_Trapezoid1 f a b n =
      Dx * (1 / 2 * f a + 1 / 2 * f b
        + ∑ i in Finset.range (n - 1).toNat, f (a + ((i : K) + 1) * Dx))
    ∧ Integral_Trapezoid1 f a b 1 = 1 / 2 * (f a + f b) * (b - a) := by
  subst hD
  constructor
  · rw [Trapezoid1_eq]; ring
  · rw [Trapezoid1_eq]
    norm_num

/-- Witness for C2 at `f = id`, `a = 0`, `b = 1`, `n = 1` over `ℚ`. -/
theorem trapezoid1_formula_witness :
    (1 : ℤ) ≤ 1 ∧
      Integral_Trapezoid1 (fun x : ℚ => x) 0 1 1 =
        ((1 - 0) / ((1 : ℤ) : ℚ))
          * (1 / 2 * 0 + 1 / 2 * 1
            + ∑ i in Finset.range ((1 : ℤ) - 1).toNat,
                (0 + ((i : ℚ) + 1) * ((1 - 0) / ((1 : ℤ) : ℚ)))) :=
  ⟨by decide, (trapezoid1_formula (fun x : ℚ => x) 0 1 1 (by decide) _ rfl).1⟩

/-- Claim C3: for even `n ≥ 2`, `Integral_SimpsonRule f a b n` equals
`(Δx/3) * (f a + f b + 4 ∑_{odd i ≤ n-1} f xᵢ + 2 ∑_{even 2 ≤ i ≤ n-2} f xᵢ)`,
the sums running over `n/2` odd indices `1, 3, …, n-1` and `(n-2)/2` even
interior indices `2, 4, …, n-2`. -/
theorem simpson_formula (f : K → K) (a b : K) (n : ℤ) (_hn : 2 ≤ n) (_he : Even n)
    (Dx : K) (hD : Dx = (b - a) / (n : K)) :
    Integral_SimpsonRule f a b n =
      Dx / 3 * (f a + f b
        + 4 * ∑ j in Finset.range (n.toNat / 2), f (a + (2 * (j : K) + 1) * Dx)
        + 2 * ∑ j in Finset.range ((n - 2).toNat / 2), f (a + (2 * (j : K) + 2) * Dx)) := by
  subst hD
  rw [Simpson_eq]
  ring

/-- Witness for C3 at `f = id`, `a = 0`, `b = 1`, `n = 2` over `ℚ`. -/
theorem simpson_formula_witness :
    ((2 : ℤ) ≤ 2 ∧ Even (2 : ℤ)) ∧
      Integral_SimpsonRule (fun x : ℚ => x) 0 1 2 =
        ((1 - 0) / ((2 : ℤ) : ℚ)) / 3
          * (0 + 1
            + 4 * ∑ j in Finset.range ((2 : ℤ).toNat / 2),
                (0 + (2 * (j : ℚ) + 1) * ((1 - 0) / ((2 : ℤ) : ℚ)))
            + 2 * ∑ j in Finset.range (((2 : ℤ) - 2).toNat / 2),
                (0 + (2 * (j : ℚ) + 2) * ((1 - 0) / ((2 : ℤ) : ℚ)))) :=
  ⟨⟨by decide, by decide⟩,
    simpson_formula (fun x : ℚ => x) 0 1 2 (by decide) (by decide) _ rfl⟩

/-- Auxiliary cast identity for reflected indices. -/
theorem reflect_cast (m i : ℕ) (hi : i < m) : ((m - 1 - i : ℕ) : K) = (m : K) - 1 - (i : K) := by
  rw [Nat.cast_sub (by omega : i ≤ m - 1), Nat.cast_sub (by omega : 1 ≤ m)]
  norm_num

/-- The last partition point `a + n Δx` is `b`. -/
theorem endpoint_eq [CharZero K] (a b : K) (n : ℤ) (hn : 1 ≤ n) :
    a + ((n.toNat : ℕ) : K) * ((b - a) / (n : K)) = b := by
  have hn0 : ((n : K)) ≠ 0 := Int.cast_ne_zero.mpr (by omega)
  rw [int_toNat_cast n (by omega)]
  field_simp

/-- Swapping the bounds negates `Integral_Trapezoid2`. -/
theorem trap2_swap [CharZero K] (f : K → K) (a b : K) (n : ℤ) (hn : 1 ≤ n) :
    Integral_Trapezoid2 f b a n = - Integral_Trapezoid2 f a b n := by
  rw [Trapezoid2_eq, Trapezoid2_eq]
  have hneg : (a - b) / (n : K) = -((b - a) / (n : K)) := by ring
  rw [hneg]
  set h : K := (b - a) / (n : K) with hh
  have hb := endpoint_eq a b n hn
  rw [← hh] at hb
  set M : ℕ := n.toNat with hM
  have e1 : ∑ i in Finset.range M, f (b + (i : K) * (-h))
      = ∑ i in Finset.range M, f (a + ((i : K) + 1) * h) := by
    rw [← Finset.sum_range_reflect (fun j : ℕ => f (a + ((j : K) + 1) * h)) M]
    refine Finset.sum_congr rfl fun i hi => congrArg f ?_
    rw [reflect_cast M i (Finset.mem_range.mp hi), ← hb]
    ring
  have e2 : ∑ i in Finset.range M, f (b + ((i : K) + 1) * (-h))
      = ∑ i in Finset.range M, f (a + (i : K) * h) := by
    rw [← Finset.sum_range_reflect (fun j : ℕ => f (a + (j : K) * h)) M]
    refine Finset.sum_congr rfl fun i hi => congrArg f ?_
    rw [reflect_cast M i (Finset.mem_range.mp hi), ← hb]
    ring
  rw [e1, e2]
  ring

/-- Swapping the bounds negates `Integral_Trapezoid1`. -/
theorem trap1_swap [CharZero K] (f : K → K) (a b : K) (n : ℤ) (hn : 1 ≤ n) :
    Integral_Trapezoid1 f b a n = - Integral_Trapezoid1 f a b n := by
  rw [Trapezoid1_eq, Trapezoid1_eq]
  have hneg : (a - b) / (n : K) = -((b - a) / (n : K)) := by ring
  rw [hneg]
  set h : K := (b - a) / (n : K) with hh
  have hb := endpoint_eq a b n hn
  rw [← hh] at hb
  have hMm : n.toNat = (n - 1).toNat + 1 := by omega
  set m : ℕ := (n - 1).toNat with hm
  have e1 : ∑ i in Finset.range m, f (b + ((i : K) + 1) * (-h))
      = ∑ i in Finset.range m, f (a + ((i : K) + 1) * h) := by
    rw [← Finset.sum_range_reflect (fun j : ℕ => f (a + ((j : K) + 1) * h)) m]
    refine Finset.sum_congr rfl fun i hi => congrArg f ?_
    rw [reflect_cast m i (Finset.mem_range.mp hi), ← hb, hMm]
    push_cast
    ring
  rw [e1]
  ring

/-- Riemann's swap identity: the right-endpoint sum of the reversed interval
is the left-endpoint sum of the original one. -/
theorem riemann_swap [CharZero K] (f : K → K) (a b : K) (n : ℤ) (hn : 1 ≤ n) :
    Integral_Riemann f b a n
      = - Integral_Riemann f a b n + ((b - a) / (n : K)) * (f b - f a) := by
  rw [Riemann_eq, Riemann_eq]
  have hneg : (a - b) / (n : K) = -((b - a) / (n : K)) := by ring
  rw [hneg]
  set h : K := (b - a) / (n : K) with hh
  have hb := endpoint_eq a b n hn
  rw [← hh] at hb
  set M : ℕ := n.toNat with hM
  have e1 : ∑ i in Finset.range M, f (b + ((i : K) + 1) * (-h))
      = ∑ i in Finset.range M, f (a + (i : K) * h) := by
    rw [← Finset.sum_range_reflect (fun j : ℕ => f (a + (j : K) * h)) M]
    refine Finset.sum_congr rfl fun i hi => congrArg f ?_
    rw [reflect_cast M i (Finset.mem_range.mp hi), ← hb]
    ring
  rw [e1]
  obtain ⟨m, hm⟩ : ∃ m : ℕ, M = m + 1 := ⟨M - 1, by omega⟩
  rw [hm, Finset.sum_range_succ', Finset.sum_range_succ]
  have e0 : f (a + ((0 : ℕ) : K) * h) = f a := congrArg f (by norm_num)
  have elast : f (a + ((m : K) + 1) * h) = f b := by
    refine congrArg f ?_
    rw [← hb, hm]
    push_cast
    ring
  have eint : ∀ i : ℕ, f (a + (((i + 1 : ℕ)) : K) * h) = f (a + ((i : K) + 1) * h) :=
    fun i => congrArg f (by push_cast; ring)
  simp only [e0, elast, eint]
  ring

/-- Swapping the bounds negates `Integral_SimpsonRule` when `n` is even. -/
theorem simpson_swap [CharZero K] (f : K → K) (a b : K) (n : ℤ) (hn : 2 ≤ n) (he : Even n) :
    Integral_SimpsonRule f b a n = - Integral_SimpsonRule f a b n := by
  obtain ⟨r, hr⟩ := he
  have hr1 : 1 ≤ r := by omega
  obtain ⟨m, hm⟩ : ∃ m : ℕ, r.toNat = m + 1 := ⟨r.toNat - 1, by omega⟩
  have hk : n.toNat / 2 = m + 1 := by omega
  have hk2 : (n - 2).toNat / 2 = m := by omega
  rw [Simpson_eq, Simpson_eq]
  have hn1 : 1 ≤ n := by omega
  have hneg : (a - b) / (n : K) = -((b - a) / (n : K)) := by ring
  rw [hneg]
  set h : K := (b - a) / (n : K) with hh
  have hb := endpoint_eq a b n hn1
  rw [← hh] at hb
  have hMcast : ((n.toNat : ℕ) : K) = 2 * ((m : K) + 1) := by
    have hM2 : n.toNat = 2 * (m + 1) := by omega
    rw [hM2]
    push_cast
    ring
  rw [hMcast] at hb
  rw [hk, hk2]
  have e1 : ∑ j in Finset.range (m + 1), f (b + (2 * (j : K) + 1) * (-h))
      = ∑ j in Finset.range (m + 1), f (a + (2 * (j : K) + 1) * h) := by
    rw [← Finset.sum_range_reflect (fun j : ℕ => f (a + (2 * (j : K) + 1) * h)) (m + 1)]
    refine Finset.sum_congr rfl fun i hi => congrArg f ?_
    rw [reflect_cast (m + 1) i (Finset.mem_range.mp hi), ← hb]
    push_cast
    ring
  have e2 : ∑ j in Finset.range m, f (b + (2 * (j : K) + 2) * (-h))
      = ∑ j in Finset.range m, f (a + (2 * (j : K) + 2) * h) := by
    rw [← Finset.sum_range_reflect (fun j : ℕ => f (a + (2 * (j : K) + 2) * h)) m]
    refine Finset.sum_congr rfl fun i hi => congrArg f ?_
    rw [reflect_cast m i (Finset.mem_range.mp hi), ← hb]
    ring
  rw [e1, e2]
  ring

/-- Composite Simpson telescoping: if the single-panel Simpson value of `f` on
any interval of half-width `s` is exactly `P (u + 2 s) - P u`, then the
composite rule with an even subdivision count `n ≥ 2` computes `P b - P a`. -/
theorem simpson_telescoping [CharZero K] (f P : K → K) (a b : K) (n : ℤ)
    (hn : 2 ≤ n) (he : Even n)
    (hpanel : ∀ u s : K, s / 3 * (f u + 4 * f (u + s) + f (u + 2 * s)) = P (u + 2 * s) - P u) :
    Integral_SimpsonRule f a b n = P b - P a := by
  obtain ⟨r, hr⟩ := he
  have hr1 : 1 ≤ r := by omega
  have hk : n.toNat / 2 = r.toNat := by omega
  have hk2 : (n - 2).toNat / 2 = r.toNat - 1 := by omega
  obtain ⟨m, hm⟩ : ∃ m : ℕ, r.toNat = m + 1 := ⟨r.toNat - 1, by omega⟩
  have hr0 : ((r : K)) ≠ 0 := Int.cast_ne_zero.mpr (by omega)
  rw [Simpson_eq]
  set h : K := (b - a) / (n : K) with hh
  have hcr : (((m + 1 : ℕ)) : K) = (r : K) := by rw [← hm, int_toNat_cast r (by omega)]
  have hnr : ((n : K)) = 2 * (r : K) := by rw [hr]; push_cast; ring
  have hkb : a + 2 * (((m + 1 : ℕ)) : K) * h = b := by
    rw [hcr, hh, hnr]
    field_simp
  have panel : ∀ j : ℕ,
      h / 3 * (f (a + 2 * (j : K) * h) + 4 * f (a + (2 * (j : K) + 1) * h)
        + f (a + (2 * (j : K) + 2) * h))
        = P (a + 2 * ((j + 1 : ℕ)) * h) - P (a + 2 * (j : K) * h) := by
    intro j
    rw [show a + (2 * (j : K) + 1) * h = a + 2 * (j : K) * h + h from by ring,
      show a + (2 * (j : K) + 2) * h = a + 2 * (j : K) * h + 2 * h from by ring,
      hpanel (a + 2 * (j : K) * h) h]
    have e : a + 2 * (j : K) * h + 2 * h = a + 2 * (((j + 1 : ℕ)) : K) * h := by
      push_cast; ring
    rw [e]
  clear_value h
  rw [hk, hk2, hm]
  simp only [Nat.add_sub_cancel]
  set S1 : K := ∑ j in Finset.range (m + 1), f (a + (2 * (j : K) + 1) * h) with hS1
  set S2 : K := ∑ j in Finset.range m, f (a + (2 * (j : K) + 2) * h) with hS2
  have eA : ∑ j in Finset.range (m + 1), f (a + 2 * (j : K) * h) = S2 + f a := by
    rw [Finset.sum_range_succ', hS2]
    congr 1
    · exact Finset.sum_congr rfl fun j _ => congrArg f (by push_cast; ring)
    · exact congrArg f (by norm_num)
  have eB : ∑ j in Finset.range (m + 1), f (a + (2 * (j : K) + 2) * h) = S2 + f b := by
    rw [Finset.sum_range_succ, hS2]
    congr 1
    refine congrArg f ?_
    rw [← hkb]
    push_cast
    ring
  calc (4 / 3 * S1 + 2 / 3 * S2 + 1 / 3 * f a + 1 / 3 * f b) * h
      = h / 3 * ((S2 + f a) + 4 * S1 + (S2 + f b)) := by ring
    _ = h / 3 * ((∑ j in Finset.range (m + 1), f (a + 2 * (j : K) * h))
          + 4 * S1 + ∑ j in Finset.range (m + 1), f (a + (2 * (j : K) + 2) * h)) := by
        rw [eA, eB]
    _ = ∑ j in Finset.range (m + 1),
          h / 3 * (f (a + 2 * (j : K) * h) + 4 * f (a + (2 * (j : K) + 1) * h)
            + f (a + (2 * (j : K) + 2) * h)) := by
        rw [hS1]
        simp only [mul_add, Finset.sum_add_distrib, ← Finset.mul_sum]
    _ = ∑ j in Finset.range (m + 1),
          (P (a + 2 * ((j + 1 : ℕ)) * h) - P (a + 2 * (j : K) * h)) :=
        Finset.sum_congr rfl fun j _ => panel j
    _ = P (a + 2 * (((m + 1 : ℕ)) : K) * h) - P (a + 2 * (((0 : ℕ)) : K) * h) :=
        Finset.sum_range_sub (fun j : ℕ => P (a + 2 * (j : K) * h)) (m + 1)
    _ = P b - P a := by rw [hkb]; norm_num

/-- Claim C4: the two trapezoid formulations agree exactly, for every `n ≥ 1`
(in exact arithmetic; the spec's floating-point statement asks for 1e-12
relative agreement, which exact equality subsumes). -/
theorem trapezoid_formulations_agree [CharZero K] (f : K → K) (a b : K) (n : ℤ) (hn : 1 ≤ n) :
    Integral_Trapezoid1 f a b n = Integral_Trapezoid2 f a b n := by
  rw [Trapezoid1_eq, Trapezoid2_eq]
  have hn0 : ((n : K)) ≠ 0 := Int.cast_ne_zero.mpr (by omega)
  set h : K := (b - a) / (n : K) with hh
  obtain ⟨m, hm⟩ : ∃ m : ℕ, n.toNat = m + 1 := ⟨n.toNat - 1, by omega⟩
  have hm1 : (n - 1).toNat = m := by omega
  have hb : a + ((n.toNat : ℕ) : K) * h = b := by
    rw [int_toNat_cast n (by omega), hh, mul_div_cancel₀ _ hn0]
    ring
  rw [hm, hm1, Finset.sum_range_succ', Finset.sum_range_succ]
  have e0 : f (a + ((0 : ℕ) : K) * h) = f a := by norm_num
  have elast : f (a + ((m : K) + 1) * h) = f b := by
    refine congrArg f ?_
    have hc : ((m : K) + 1) = ((n.toNat : ℕ) : K) := by rw [hm]; push_cast; ring
    rw [hc, hb]
  have eint : ∀ i : ℕ, f (a + (((i + 1 : ℕ)) : K) * h) = f (a + ((i : K) + 1) * h) := by
    intro i; refine congrArg f ?_; push_cast; ring
  simp only [e0, elast, eint]
  ring

/-- Witness for C4 at `f = id`, `a = 0`, `b = 1`, `n = 2` over `ℚ`. -/
theorem trapezoid_formulations_agree_witness :
    (1 : ℤ) ≤ 2 ∧
      Integral_Trapezoid1 (fun x : ℚ => x) 0 1 2 = Integral_Trapezoid2 (fun x : ℚ => x) 0 1 2 :=
  ⟨by decide, trapezoid_formulations_agree (fun x : ℚ => x) 0 1 2 (by decide)⟩

/-- Counterexample for C5: Simpson's rule applied to the constant function `1`
with the odd count `n = 1` returns `2/3`, not `1 * (1 - 0)`: the rule is not
exact on constants for odd `n`. -/
theorem simpson_const_odd_n_fails :
    Integral_SimpsonRule (fun _ : ℚ => (1 : ℚ)) 0 1 1 = 2 / 3
      ∧ ((2 : ℚ) / 3) ≠ 1 * (1 - 0) := by
  constructor
  · norm_num [Integral_SimpsonRule, List.range']
  · norm_num

/-- Claim C5 (amended): integrating the constant function `c` with any `n ≥ 1`
yields exactly `c (b - a)` for `Integral_Riemann`, `Integral_Trapezoid1` and
`Integral_Trapezoid2`; for `Integral_SimpsonRule` this holds when `n` is even
(for odd `n` it fails, see the counterexample). -/
theorem const_function_exactness [CharZero K] (c a b : K) (n : ℤ) (hn : 1 ≤ n) :
    Integral_Riemann (fun _ => c) a b n = c * (b - a)
    ∧ Integral_Trapezoid1 (fun _ => c) a b n = c * (b - a)
    ∧ Integral_Trapezoid2 (fun _ => c) a b n = c * (b - a)
    ∧ (Even n → Integral_SimpsonRule (fun _ => c) a b n = c * (b - a)) := by
  have hn0 : ((n : K)) ≠ 0 := Int.cast_ne_zero.mpr (by omega)
  have hcn : ((n.toNat : ℕ) : K) = (n : K) := int_toNat_cast n (by omega)
  have hcn1 : (((n - 1).toNat : ℕ) : K) = (n : K) - 1 := by
    rw [int_toNat_cast (n - 1) (by omega)]; push_cast; ring
  refine ⟨?_, ?_, ?_, ?_⟩
  · rw [Riemann_eq]
    simp only [Finset.sum_const, Finset.card_range, nsmul_eq_mul, hcn]
    field_simp
    ring
  · rw [Trapezoid1_eq]
    simp only [Finset.sum_const, Finset.card_range, nsmul_eq_mul, hcn1]
    field_simp
    ring
  · rw [Trapezoid2_eq]
    simp only [Finset.sum_const, Finset.card_range, nsmul_eq_mul, hcn]
    field_simp
    ring
  · rintro ⟨r, hr⟩
    have hr1 : 1 ≤ r := by omega
    have hk : n.toNat / 2 = r.toNat := by omega
    have hk2 : (n - 2).toNat / 2 = r.toNat - 1 := by omega
    have hcr : ((r.toNat : ℕ) : K) = (r : K) := int_toNat_cast r (by omega)
    have hcr1 : (((r.toNat - 1 : ℕ)) : K) = (r : K) - 1 := by
      rw [Nat.cast_sub (by omega), hcr]; norm_num
    have hnr : ((n : K)) = 2 * (r : K) := by rw [hr]; push_cast; ring
    have hr0 : ((r : K)) ≠ 0 := Int.cast_ne_zero.mpr (by omega)
    rw [Simpson_eq]
    simp only [Finset.sum_const, Finset.card_range, nsmul_eq_mul, hk, hk2, hcr, hcr1, hnr]
    field_simp
    ring

/-- Witness for C5 at `c = 5`, `a = 0`, `b = 1`, `n = 2` over `ℚ`. -/
theorem const_function_exactness_witness :
    (1 : ℤ) ≤ 2 ∧
      (Integral_Riemann (fun _ : ℚ => (5 : ℚ)) 0 1 2 = 5 * (1 - 0)
        ∧ Integral_Trapezoid1 (fun _ : ℚ => (5 : ℚ)) 0 1 2 = 5 * (1 - 0)
        ∧ Integral_Trapezoid2 (fun _ : ℚ => (5 : ℚ)) 0 1 2 = 5 * (1 - 0)
        ∧ (Even (2 : ℤ) → Integral_SimpsonRule (fun _ : ℚ => (5 : ℚ)) 0 1 2 = 5 * (1 - 0))) :=
  ⟨by decide, const_function_exactness 5 0 1 2 (by decide)⟩

/-- Claim C6: `Integral_SimpsonRule` integrates every polynomial of degree at
most 3, written `c0 + c1 x + c2 x² + c3 x³`, exactly over `[a, b]` for every
even `n ≥ 2`: the result is `P b - P a` for the antiderivative
`P x = c0 x + c1 x²/2 + c2 x³/3 + c3 x⁴/4`. -/
theorem simpson_cubic_exactness [CharZero K] (c0 c1 c2 c3 a b : K) (n : ℤ)
    (hn : 2 ≤ n) (he : Even n) :
    Integral_SimpsonRule (fun x => c0 + c1 * x + c2 * x ^ 2 + c3 * x ^ 3) a b n =
      (c0 * b + c1 * b ^ 2 / 2 + c2 * b ^ 3 / 3 + c3 * b ^ 4 / 4)
        - (c0 * a + c1 * a ^ 2 / 2 + c2 * a ^ 3 / 3 + c3 * a ^ 4 / 4) :=
  simpson_telescoping (fun x => c0 + c1 * x + c2 * x ^ 2 + c3 * x ^ 3)
    (fun x => c0 * x + c1 * x ^ 2 / 2 + c2 * x ^ 3 / 3 + c3 * x ^ 4 / 4) a b n hn he
    (fun u s => by simp only []; ring)

/-- Witness for C6: the cubic `x³` on `[0, 1]` with `n = 2` over `ℚ`. -/
theorem simpson_cubic_exactness_witness :
    ((2 : ℤ) ≤ 2 ∧ Even (2 : ℤ)) ∧
      Integral_SimpsonRule (fun x : ℚ => 0 + 0 * x + 0 * x ^ 2 + 1 * x ^ 3) 0 1 2 =
        (0 * 1 + 0 * 1 ^ 2 / 2 + 0 * 1 ^ 3 / 3 + 1 * 1 ^ 4 / 4)
          - (0 * 0 + 0 * 0 ^ 2 / 2 + 0 * 0 ^ 3 / 3 + 1 * 0 ^ 4 / 4) :=
  ⟨⟨by decide, by decide⟩, simpson_cubic_exactness 0 0 0 1 0 1 2 (by decide) (by decide)⟩

/-- Counterexample for C7: at `n = 0` every rule raises `ZeroDivisionError`
(Python evaluates `(float(b) - float(a)) / float(0)`), so none of them
"returns some value" for every `n ≤ 0`. -/
theorem zero_subdivisions_raise :
    Integral_RiemannE (fun x : ℚ => x) 0 1 0 = Except.error PyErr.zeroDivisionError
    ∧ Integral_Trapezoid1E (fun x : ℚ => x) 0 1 0 = Except.error PyErr.zeroDivisionError
    ∧ Integral_Trapezoid2E (fun x : ℚ => x) 0 1 0 = Except.error PyErr.zeroDivisionError
    ∧ Integral_SimpsonRuleE (fun x : ℚ => x) 0 1 0 = Except.error PyErr.zeroDivisionError :=
  ⟨rfl, rfl, rfl, rfl⟩

/-- Claim C7 (amended): for `n ≤ 0` the rules are not all total: at `n = 0`
each of the four rules raises `ZeroDivisionError` when computing
`Δx = (b-a)/float(n)`; for `n < 0` no exception is raised and a value is
returned (every abscissa list is empty, and `np.vectorize` is modelled as an
elementwise map). -/
theorem nonpositive_subdivisions_behavior (f : K → K) (a b : K) (n : ℤ) (hn : n ≤ 0) :
    (n = 0 →
      Integral_RiemannE f a b n = Except.error PyErr.zeroDivisionError
      ∧ Integral_Trapezoid1E f a b n = Except.error PyErr.zeroDivisionError
      ∧ Integral_Trapezoid2E f a b n = Except.error PyErr.zeroDivisionError
      ∧ Integral_SimpsonRuleE f a b n = Except.error PyErr.zeroDivisionError)
    ∧ (n < 0 →
      Integral_RiemannE f a b n = Except.ok (Integral_Riemann f a b n)
      ∧ Integral_Trapezoid1E f a b n = Except.ok (Integral_Trapezoid1 f a b n)
      ∧ Integral_Trapezoid2E f a b n = Except.ok (Integral_Trapezoid2 f a b n)
      ∧ Integral_SimpsonRuleE f a b n = Except.ok (Integral_SimpsonRule f a b n)) := by
  constructor
  · rintro rfl
    exact ⟨rfl, rfl, rfl, rfl⟩
  · intro hlt
    have h0 : ¬(n = 0) := by omega
    simp [Integral_RiemannE, Integral_Trapezoid1E, Integral_Trapezoid2E,
      Integral_SimpsonRuleE, h0]

/-- Witness for C7 at `f = id`, `a = 0`, `b = 1`, `n = 0` over `ℚ`. -/
theorem nonpositive_subdivisions_behavior_witness :
    (0 : ℤ) ≤ 0 ∧
      (((0 : ℤ) = 0 →
        Integral_RiemannE (fun x : ℚ => x) 0 1 0 = Except.error PyErr.zeroDivisionError
        ∧ Integral_Trapezoid1E (fun x : ℚ => x) 0 1 0 = Except.error PyErr.zeroDivisionError
        ∧ Integral_Trapezoid2E (fun x : ℚ => x) 0 1 0 = Except.error PyErr.zeroDivisionError
        ∧ Integral_SimpsonRuleE (fun x : ℚ => x) 0 1 0 = Except.error PyErr.zeroDivisionError)
      ∧ ((0 : ℤ) < 0 →
        Integral_RiemannE (fun x : ℚ => x) 0 1 0
            = Except.ok (Integral_Riemann (fun x : ℚ => x) 0 1 0)
        ∧ Integral_Trapezoid1E (fun x : ℚ => x) 0 1 0
            = Except.ok (Integral_Trapezoid1 (fun x : ℚ => x) 0 1 0)
        ∧ Integral_Trapezoid2E (fun x : ℚ => x) 0 1 0
            = Except.ok (Integral_Trapezoid2 (fun x : ℚ => x) 0 1 0)
        ∧ Integral_SimpsonRuleE (fun x : ℚ => x) 0 1 0
            = Except.ok (Integral_SimpsonRule (fun x : ℚ => x) 0 1 0))) :=
  ⟨by decide, nonpositive_subdivisions_behavior (fun x : ℚ => x) 0 1 0 (by decide)⟩

/-- Counterexample for C8: swapping the bounds does not negate
`Integral_Riemann`: with `f = id`, `a = 0 < b = 1`, `n = 1`, the swapped call
returns `0` while the negation of the direct call is `-1`. -/
theorem riemann_swap_not_negation :
    Integral_Riemann (fun x : ℚ => x) 1 0 1 = 0
    ∧ Integral_Riemann (fun x : ℚ => x) 0 1 1 = 1
    ∧ (0 : ℚ) ≠ -1 := by
  refine ⟨?_, ?_, by norm_num⟩ <;> norm_num [Integral_Riemann, List.range']

/-- Claim C8 (amended): for `n ≥ 1`, swapping the interval bounds exactly
negates `Integral_Trapezoid1` and `Integral_Trapezoid2`, and negates
`Integral_SimpsonRule` when `n` is even; `Integral_Riemann` is not negated:
its swapped value is the negated left-endpoint sum,
`-Riemann + Δx (f b - f a)`. -/
theorem swap_bounds_behavior [CharZero K] (f : K → K) (a b : K) (n : ℤ) (hn : 1 ≤ n) :
    Integral_Trapezoid1 f b a n = - Integral_Trapezoid1 f a b n
    ∧ Integral_Trapezoid2 f b a n = - Integral_Trapezoid2 f a b n
    ∧ (2 ≤ n → Even n → Integral_SimpsonRule f b a n = - Integral_SimpsonRule f a b n)
    ∧ Integral_Riemann f b a n
        = - Integral_Riemann f a b n + ((b - a) / (n : K)) * (f b - f a) :=
  ⟨trap1_swap f a b n hn, trap2_swap f a b n hn,
    fun h2 he => simpson_swap f a b n h2 he, riemann_swap f a b n hn⟩

/-- Witness for C8 at `f = id`, `a = 0`, `b = 1`, `n = 2` over `ℚ`. -/
theorem swap_bounds_behavior_witness :
    (1 : ℤ) ≤ 2 ∧
      (Integral_Trapezoid1 (fun x : ℚ => x) 1 0 2 = - Integral_Trapezoid1 (fun x : ℚ => x) 0 1 2
      ∧ Integral_Trapezoid2 (fun x : ℚ => x) 1 0 2 = - Integral_Trapezoid2 (fun x : ℚ => x) 0 1 2
      ∧ (2 ≤ (2 : ℤ) → Even (2 : ℤ) →
          Integral_SimpsonRule (fun x : ℚ => x) 1 0 2
            = - Integral_SimpsonRule (fun x : ℚ => x) 0 1 2)
      ∧ Integral_Riemann (fun x : ℚ => x) 1 0 2
          = - Integral_Riemann (fun x : ℚ => x) 0 1 2
            + ((1 - 0) / ((2 : ℤ) : ℚ)) * ((fun x : ℚ => x) 1 - (fun x : ℚ => x) 0)) :=
  ⟨by decide, swap_bounds_behavior (fun x : ℚ => x) 0 1 2 (by decide)⟩

/-- Claim C9: the numeric differentiator returns exactly the centered finite
difference `(F (x+h) - F (x-h)) / (2h)`; `dF_dx` uses the default step
`h = 1/10000`; and the elementwise form maps a list of points to a same-length
list whose `i`-th entry is the scalar estimate at the `i`-th input. -/
theorem numeric_differentiator_centered (F : K → K) (x h : K) (xs : List K) :
    scipy_derivative F x h = (F (x + h) - F (x - h)) / (2 * h)
    ∧ dF_dx F x = (F (x + 1 / 10000) - F (x - 1 / 10000)) / (2 * (1 / 10000))
    ∧ (Vect_dF_dx F xs).length = xs.length
    ∧ ∀ i : ℕ, (Vect_dF_dx F xs)[i]? = xs[i]?.map (dF_dx F) := by
  have hmain : ∀ s : K, scipy_derivative F x s = (F (x + s) - F (x - s)) / (2 * s) := by
    intro s
    unfold scipy_derivative
    rw [show x + ((0 : K) - 1) * s = x - s from by ring,
      show x + ((2 : K) - 1) * s = x + s from by ring, ← div_div]
    congr 1
    ring
  exact ⟨hmain h, hmain (1 / 10000), by simp [Vect_dF_dx],
    fun i => by simp [Vect_dF_dx, List.getElem?_map]⟩

/-- Claim C10: for `n ≥ 1`, the Riemann and trapezoid results differ by
exactly the boundary correction `(Δx/2) (f b - f a)`. -/
theorem riemann_trapezoid_boundary_diff [CharZero K] (f : K → K) (a b : K) (n : ℤ)
    (hn : 1 ≤ n) (Dx : K) (hD : Dx = (b - a) / (n : K)) :
    Integral_Riemann f a b n - Integral_Trapezoid1 f a b n = Dx / 2 * (f b - f a) := by
  subst hD
  rw [Riemann_eq, Trapezoid1_eq]
  have hn0 : ((n : K)) ≠ 0 := Int.cast_ne_zero.mpr (by omega)
  set h : K := (b - a) / (n : K) with hh
  obtain ⟨m, hm⟩ : ∃ m : ℕ, n.toNat = m + 1 := ⟨n.toNat - 1, by omega⟩
  have hm1 : (n - 1).toNat = m := by omega
  rw [hm, hm1, Finset.sum_range_succ]
  have elast : f (a + (((m : ℕ) : K) + 1) * h) = f b := by
    refine congrArg f ?_
    have h2 : ((m : K) + 1) = ((n.toNat : ℕ) : K) := by rw [hm]; push_cast; ring
    rw [h2, int_toNat_cast n (by omega), hh, mul_div_cancel₀ _ hn0]
    ring
  rw [elast]
  ring

/-- Witness for C10 at `f = id`, `a = 0`, `b = 1`, `n = 1` over `ℚ`. -/
theorem riemann_trapezoid_boundary_diff_witness :
    (1 : ℤ) ≤ 1 ∧
      Integral_Riemann (fun x : ℚ => x) 0 1 1 - Integral_Trapezoid1 (fun x : ℚ => x) 0 1 1
        = ((1 - 0) / ((1 : ℤ) : ℚ)) / 2 * ((fun x : ℚ => x) 1 - (fun x : ℚ => x) 0) :=
  ⟨by decide, riemann_trapezoid_boundary_diff (fun x : ℚ => x) 0 1 1 (by decide) _ rfl⟩

end Claims

end NumInt
